import Mathlib

/-!
Shallow embedding of `clubsandwich/xp_loader.py`, the REXPaint `.xp` binary
format decoder, together with theorems settling the specification claims.

Modelling conventions:
* A Python `bytes` buffer is a `List Byte` with `Byte := Fin 256`.
* Python slicing `s[a:b]` truncates at the end of the buffer and never
  reads out of bounds; it is modelled by `slice`.
* `_bytes_to_int(bts)` is `int(base64.b16encode(bts), 16)`: the big-endian
  base-256 value of the bytes.  On the empty byte string `int('', 16)`
  raises `ValueError`; this is the only failure the decoder can raise, and
  it is modelled by `Except PyError` with the single error `valueError`.
* The `for` loops of `load_xp_string` and `_parse_layer` advance a byte
  offset; they are modelled by structural recursion on the remaining
  iteration count, threading the offset (and the running maxima) exactly
  as the source does.
-/

namespace XP

/-- One byte of a Python `bytes` object: an integer in `[0, 256)`. -/
abbrev Byte := Fin 256

/-- The only exception `load_xp_string` can raise: `ValueError` from
`int('', 16)` inside `_bytes_to_int` when a slice comes back empty. -/
inductive PyError where
  | valueError
deriving Repr, DecidableEq

/-- Python `s[a:b]` (for `0 ≤ a ≤ b`): truncating slice. -/
def slice (s : List Byte) (a b : Nat) : List Byte :=
  (s.drop a).take (b - a)

-- Module-level byte-size constants from the source.
def version_bytes : Nat := 4
def layer_count_bytes : Nat := 4
def layer_width_bytes : Nat := 4
def layer_height_bytes : Nat := 4
def layer_keycode_bytes : Nat := 4
def layer_fore_rgb_bytes : Nat := 3
def layer_back_rgb_bytes : Nat := 3
def layer_cell_bytes : Nat :=
  layer_keycode_bytes + layer_fore_rgb_bytes + layer_back_rgb_bytes

/-- `_bytes_to_int`: `int(base64.b16encode(bts), 16)`.  Hex-encodes the bytes
then parses them as one big-endian integer; `int('', 16)` raises
`ValueError`, so the empty string is the sole failure case. -/
def bytes_to_int (bts : List Byte) : Except PyError Nat :=
  if bts = [] then .error .valueError
  else .ok (bts.foldl (fun acc b => acc * 256 + b.val) 0)

/-- One cell of a layer grid, as returned by `_parse_individual_cell`. -/
structure Cell where
  keycode : Nat
  fore_r : Nat
  fore_g : Nat
  fore_b : Nat
  back_r : Nat
  back_g : Nat
  back_b : Nat
deriving Repr, DecidableEq

/-- One layer, as returned by `_parse_layer`. -/
structure Layer where
  width : Nat
  height : Nat
  cells : List (List Cell)
deriving Repr, DecidableEq

/-- The dictionary returned by `load_xp_string`. -/
structure Document where
  version : Nat
  layer_count : Nat
  width : Nat
  height : Nat
  layer_data : List Layer
deriving Repr, DecidableEq

/-- `_parse_individual_cell`: slice the keycode (offsets `[0,4)`, reversed
when `reverse_endian`), then six single-byte colour fields at offsets
`4, 5, 6, 7, 8, 9`. -/
def parse_individual_cell (cell_string : List Byte) (reverse_endian : Bool) :
    Except PyError Cell :=
  (bytes_to_int (if reverse_endian
      then (slice cell_string 0 layer_keycode_bytes).reverse
      else slice cell_string 0 layer_keycode_bytes)).bind fun keycode =>
  (bytes_to_int (slice cell_string 4 5)).bind fun fore_r =>
  (bytes_to_int (slice cell_string 5 6)).bind fun fore_g =>
  (bytes_to_int (slice cell_string 6 7)).bind fun fore_b =>
  (bytes_to_int (slice cell_string 7 8)).bind fun back_r =>
  (bytes_to_int (slice cell_string 8 9)).bind fun back_g =>
  (bytes_to_int (slice cell_string 9 10)).bind fun back_b =>
  .ok { keycode, fore_r, fore_g, fore_b, back_r, back_g, back_b }

/-- Inner `for y in range(height)` loop of `_parse_layer`: decode `y` more
cells starting at `offset`, returning the cells in order and the final
offset. -/
def parse_cell_row (layer_string : List Byte) (reverse_endian : Bool) :
    Nat → Nat → Except PyError (List Cell × Nat)
  | 0, offset => .ok ([], offset)
  | y + 1, offset =>
    (parse_individual_cell (slice layer_string offset (offset + layer_cell_bytes))
        reverse_endian).bind fun cell_data =>
    (parse_cell_row layer_string reverse_endian y (offset + layer_cell_bytes)).bind fun p =>
    .ok (cell_data :: p.1, p.2)

/-- Outer `for x in range(width)` loop of `_parse_layer`: decode `x` more
rows of `height` cells each, returning the rows in order and the final
offset. -/
def parse_cell_grid (layer_string : List Byte) (reverse_endian : Bool) (height : Nat) :
    Nat → Nat → Except PyError (List (List Cell) × Nat)
  | 0, offset => .ok ([], offset)
  | x + 1, offset =>
    (parse_cell_row layer_string reverse_endian height offset).bind fun row =>
    (parse_cell_grid layer_string reverse_endian height x row.2).bind fun p =>
    .ok (row.1 :: p.1, p.2)

/-- `_parse_layer`: read width (`[0,4)`) and height (`[4,8)`), each reversed
when `reverse_endian`, then decode `width` columns of `height` cells
starting at offset 8. -/
def parse_layer (layer_string : List Byte) (reverse_endian : Bool) :
    Except PyError Layer :=
  (bytes_to_int (if reverse_endian
      then (slice layer_string 0 layer_width_bytes).reverse
      else slice layer_string 0 layer_width_bytes)).bind fun width =>
  (bytes_to_int (if reverse_endian
      then (slice layer_string layer_width_bytes
              (layer_width_bytes + layer_height_bytes)).reverse
      else slice layer_string layer_width_bytes
              (layer_width_bytes + layer_height_bytes))).bind fun height =>
  (parse_cell_grid layer_string reverse_endian height width
      (layer_width_bytes + layer_height_bytes)).bind fun p =>
  .ok { width, height, cells := p.1 }

/-- `for layer in range(layer_count)` loop of `load_xp_string`: per layer,
look ahead at width (`[offset, offset+4)`) and height
(`[offset+4, offset+8)`) without consuming the cursor, update the running
maxima, slice `layer_data_size = 4 + 4 + 10 * width * height` bytes for
`_parse_layer`, and advance the cursor by `layer_data_size`.  Returns the
layers in order, the final offset, and the two maxima. -/
def load_layers (file_string : List Byte) (reverse_endian : Bool) :
    Nat → Nat → Nat → Nat → Except PyError (List Layer × Nat × Nat × Nat)
  | 0, offset, current_largest_width, current_largest_height =>
    .ok ([], offset, current_largest_width, current_largest_height)
  | n + 1, offset, current_largest_width, current_largest_height =>
    (bytes_to_int (if reverse_endian
        then (slice file_string offset (offset + layer_width_bytes)).reverse
        else slice file_string offset (offset + layer_width_bytes))).bind
          fun this_layer_width =>
    (bytes_to_int (if reverse_endian
        then (slice file_string (offset + layer_width_bytes)
                (offset + layer_width_bytes + layer_height_bytes)).reverse
        else slice file_string (offset + layer_width_bytes)
                (offset + layer_width_bytes + layer_height_bytes))).bind
          fun this_layer_height =>
    (parse_layer (slice file_string offset
        (offset + (layer_width_bytes + layer_height_bytes +
          layer_cell_bytes * this_layer_width * this_layer_height)))
        reverse_endian).bind fun layer_data =>
    (load_layers file_string reverse_endian n
        (offset + (layer_width_bytes + layer_height_bytes +
          layer_cell_bytes * this_layer_width * this_layer_height))
        (max current_largest_width this_layer_width)
        (max current_largest_height this_layer_height)).bind fun p =>
    .ok (layer_data :: p.1, p.2)

/-- `load_xp_string`: read version (`[0,4)`) and layer count (`[4,8)`), each
reversed when `reverse_endian`, run the layer loop from offset 8, and
assemble the result dictionary. -/
def load_xp_string (file_string : List Byte) (reverse_endian : Bool) :
    Except PyError Document :=
  (bytes_to_int (if reverse_endian
      then (slice file_string 0 version_bytes).reverse
      else slice file_string 0 version_bytes)).bind fun version =>
  (bytes_to_int (if reverse_endian
      then (slice file_string version_bytes
              (version_bytes + layer_count_bytes)).reverse
      else slice file_string version_bytes
              (version_bytes + layer_count_bytes))).bind fun layer_count =>
  (load_layers file_string reverse_endian layer_count
      (version_bytes + layer_count_bytes) 0 0).bind fun p =>
  .ok { version, layer_count, width := p.2.2.1, height := p.2.2.2,
        layer_data := p.1 }

/-- Reference definition following the spec's words for `_bytes_to_int`: the
big-endian value `sum over i in [0, n) of b[i] * 256^(n-1-i)`. -/
def be_reference (b : List Byte) : Nat :=
  ∑ i ∈ Finset.range b.length, (b.getD i 0).val * 256 ^ (b.length - 1 - i)

/-- Reference definition following the spec's words for the little-endian
interpretation: `sum over i in [0, n) of b[i] * 256^i`. -/
def le_reference (b : List Byte) : Nat :=
  ∑ i ∈ Finset.range b.length, (b.getD i 0).val * 256 ^ i

/-- Hand-constructed buffer from the spec's round-trip property: version 1,
one layer, width 2, height 1, cells with keycodes 65 and 66, all multi-byte
fields little-endian. -/
def sample_buffer : List Byte :=
  [1, 0, 0, 0, 1, 0, 0, 0, 2, 0, 0, 0, 1, 0, 0, 0,
   65, 0, 0, 0, 252, 252, 252, 0, 0, 0,
   66, 0, 0, 0, 252, 252, 252, 0, 0, 0]

/-- The layer that decoding `sample_buffer` must produce. -/
def sample_layer : Layer :=
  { width := 2, height := 1,
    cells := [[{ keycode := 65, fore_r := 252, fore_g := 252, fore_b := 252,
                 back_r := 0, back_g := 0, back_b := 0 }],
              [{ keycode := 66, fore_r := 252, fore_g := 252, fore_b := 252,
                 back_r := 0, back_g := 0, back_b := 0 }]] }

/-- The document that decoding `sample_buffer` must produce. -/
def sample_document : Document :=
  { version := 1, layer_count := 1, width := 2, height := 1,
    layer_data := [sample_layer] }

instance {ε α : Type} [DecidableEq ε] [DecidableEq α] : DecidableEq (Except ε α) :=
  fun a b =>
  match a, b with
  | .ok x, .ok y => if h : x = y then .isTrue (by rw [h]) else .isFalse (by simp [h])
  | .error x, .error y => if h : x = y then .isTrue (by rw [h]) else .isFalse (by simp [h])
  | .ok _, .error _ => .isFalse (by simp)
  | .error _, .ok _ => .isFalse (by simp)

/-- Inversion for `Except.bind`: a bind returns `ok` exactly when both stages do. -/
theorem bind_eq_ok {α β : Type} {e : Except PyError α} {f : α → Except PyError β} {b : β} :
    e.bind f = .ok b ↔ ∃ a, e = .ok a ∧ f a = .ok b := by
  cases e <;> simp [Except.bind]

/-- Congruence for `Except.bind` when the continuations agree on the `ok` value. -/
theorem bind_congr_ok {α β : Type} {e : Except PyError α} {f g : α → Except PyError β}
    (h : ∀ a, e = .ok a → f a = g a) : e.bind f = e.bind g := by
  cases e with
  | error _ => rfl
  | ok a => exact h a rfl

/-- A fully in-bounds slice has exactly the requested length. -/
theorem slice_length {s : List Byte} {a n : Nat} (h : a + n ≤ s.length) :
    (slice s a (a + n)).length = n := by
  simp only [slice, List.length_take, List.length_drop]
  omega

/-- Re-slicing a slice that extends at least `e` bytes reads the same bytes as
slicing the original buffer. -/
theorem slice_slice {s : List Byte} {a c d e : Nat} (h : e ≤ c) :
    slice (slice s a (a + c)) d e = slice s (a + d) (a + e) := by
  simp only [slice, Nat.add_sub_cancel_left]
  rw [List.drop_take, List.drop_drop, List.take_take]
  have h1 : min (e - d) (c - d) = e - d := Nat.min_eq_left (Nat.sub_le_sub_right h d)
  have h2 : a + e - (a + d) = e - d := by omega
  rw [h1, h2]

/-- A slice that ends inside `s` is unchanged by appending extra bytes. -/
theorem slice_append {s t : List Byte} {a b : Nat} (h : b ≤ s.length) :
    slice (s ++ t) a b = slice s a b := by
  simp only [slice]
  rcases le_or_lt a s.length with ha | ha
  · rw [List.drop_append_of_le_length ha]
    exact List.take_append_of_le_length (by simp [List.length_drop]; omega)
  · have h1 : b - a = 0 := by omega
    simp [h1]

/-- On a non-empty byte string, `_bytes_to_int` succeeds with the big-endian
base-256 fold of the bytes. -/
theorem bytes_to_int_ne_nil {bts : List Byte} (h : bts ≠ []) :
    bytes_to_int bts = .ok (bts.foldl (fun acc b => acc * 256 + b.val) 0) := by
  simp [bytes_to_int, h]

/-- `_bytes_to_int` only succeeds on a non-empty byte string. -/
theorem bytes_to_int_eq_ok {bts : List Byte} {n : Nat}
    (h : bytes_to_int bts = .ok n) : bts ≠ [] := by
  intro hnil
  subst hnil
  simp [bytes_to_int] at h

/-- The inner cell loop returns exactly `y` cells. -/
theorem parse_cell_row_length {ls : List Byte} {re : Bool} {y offset : Nat}
    {p : List Cell × Nat}
    (h : parse_cell_row ls re y offset = .ok p) : p.1.length = y := by
  induction y generalizing offset p with
  | zero =>
    simp only [parse_cell_row, Except.ok.injEq] at h
    rw [← h]
    rfl
  | succ y ih =>
    simp only [parse_cell_row] at h
    rcases bind_eq_ok.mp h with ⟨cell, _, h2⟩
    rcases bind_eq_ok.mp h2 with ⟨q, hq, h3⟩
    cases h3
    simp [ih hq]

/-- The outer cell loop returns exactly `x` rows, each of exactly `height` cells. -/
theorem parse_cell_grid_shape {ls : List Byte} {re : Bool} {height x offset : Nat}
    {p : List (List Cell) × Nat}
    (h : parse_cell_grid ls re height x offset = .ok p) :
    p.1.length = x ∧ ∀ row ∈ p.1, row.length = height := by
  induction x generalizing offset p with
  | zero =>
    simp only [parse_cell_grid, Except.ok.injEq] at h
    rw [← h]
    exact ⟨rfl, by simp⟩
  | succ x ih =>
    simp only [parse_cell_grid] at h
    rcases bind_eq_ok.mp h with ⟨row, hr, h2⟩
    rcases bind_eq_ok.mp h2 with ⟨q, hq, h3⟩
    cases h3
    obtain ⟨hlen, hmem⟩ := ih hq
    refine ⟨by simp [hlen], ?_⟩
    intro r hrmem
    rcases List.mem_cons.mp hrmem with rfl | hrmem
    · exact parse_cell_row_length hr
    · exact hmem r hrmem

/-- Inversion for `_parse_layer`: on success, width and height are the decoded
4-byte fields at offsets 0 and 4 and the cells come from the grid loop. -/
theorem parse_layer_eq_ok {ls : List Byte} {re : Bool} {L : Layer}
    (h : parse_layer ls re = .ok L) :
    bytes_to_int (if re then (slice ls 0 4).reverse else slice ls 0 4) = .ok L.width ∧
    bytes_to_int (if re then (slice ls 4 8).reverse else slice ls 4 8) = .ok L.height ∧
    ∃ p, parse_cell_grid ls re L.height L.width 8 = .ok p ∧ L.cells = p.1 := by
  simp only [parse_layer] at h
  rcases bind_eq_ok.mp h with ⟨w, hw, h2⟩
  rcases bind_eq_ok.mp h2 with ⟨ht, hht, h3⟩
  rcases bind_eq_ok.mp h3 with ⟨p, hp, h4⟩
  cases h4
  exact ⟨hw, hht, p, hp, rfl⟩

/-- On success every layer returned by the framer loop was produced by
`_parse_layer`, and there are exactly `n` of them. -/
theorem load_layers_shape {s : List Byte} {re : Bool} {n offset clw clh : Nat}
    {p : List Layer × Nat × Nat × Nat}
    (h : load_layers s re n offset clw clh = .ok p) :
    p.1.length = n ∧ ∀ L ∈ p.1, ∃ ls, parse_layer ls re = .ok L := by
  induction n generalizing offset clw clh p with
  | zero =>
    simp only [load_layers, Except.ok.injEq] at h
    rw [← h]
    exact ⟨rfl, by simp⟩
  | succ n ih =>
    simp only [load_layers] at h
    rcases bind_eq_ok.mp h with ⟨w, _, h2⟩
    rcases bind_eq_ok.mp h2 with ⟨ht, _, h3⟩
    rcases bind_eq_ok.mp h3 with ⟨layer, hl, h4⟩
    rcases bind_eq_ok.mp h4 with ⟨q, hq, h5⟩
    cases h5
    obtain ⟨hlen, hmem⟩ := ih hq
    refine ⟨by simp [hlen], ?_⟩
    intro L hLmem
    rcases List.mem_cons.mp hLmem with rfl | hLmem
    · exact ⟨_, hl⟩
    · exact hmem L hLmem

/-- The framer loop never moves the cursor backwards. -/
theorem load_layers_offset_le {s : List Byte} {re : Bool} {n offset clw clh : Nat}
    {p : List Layer × Nat × Nat × Nat}
    (h : load_layers s re n offset clw clh = .ok p) : offset ≤ p.2.1 := by
  induction n generalizing offset clw clh p with
  | zero =>
    simp only [load_layers, Except.ok.injEq] at h
    subst h
    exact Nat.le_refl _
  | succ n ih =>
    simp only [load_layers] at h
    rcases bind_eq_ok.mp h with ⟨w, _, h2⟩
    rcases bind_eq_ok.mp h2 with ⟨ht, _, h3⟩
    rcases bind_eq_ok.mp h3 with ⟨layer, _, h4⟩
    rcases bind_eq_ok.mp h4 with ⟨q, hq, h5⟩
    cases h5
    have hrec := ih hq
    exact Nat.le_trans (Nat.le_add_right offset _) hrec

/-- On success the two running maxima returned by the framer loop are the
folded maxima of the decoded layers' own width and height fields. -/
theorem load_layers_maxima {s : List Byte} {re : Bool} {n offset clw clh : Nat}
    {p : List Layer × Nat × Nat × Nat}
    (h : load_layers s re n offset clw clh = .ok p) :
    p.2.2.1 = (p.1.map Layer.width).foldl max clw ∧
    p.2.2.2 = (p.1.map Layer.height).foldl max clh := by
  induction n generalizing offset clw clh p with
  | zero =>
    simp only [load_layers, Except.ok.injEq] at h
    subst h
    exact ⟨rfl, rfl⟩
  | succ n ih =>
    simp only [load_layers] at h
    rcases bind_eq_ok.mp h with ⟨w, hw, h2⟩
    rcases bind_eq_ok.mp h2 with ⟨ht, hht, h3⟩
    rcases bind_eq_ok.mp h3 with ⟨layer, hl, h4⟩
    rcases bind_eq_ok.mp h4 with ⟨q, hq, h5⟩
    cases h5
    obtain ⟨hW, hH⟩ := ih hq
    obtain ⟨hw', hht', -⟩ := parse_layer_eq_ok hl
    have hc4 : (4:Nat) ≤ layer_width_bytes + layer_height_bytes + layer_cell_bytes * w * ht := by
      have e : layer_width_bytes + layer_height_bytes + layer_cell_bytes * w * ht
          = 8 + 10 * (w * ht) := by
        show 4 + 4 + 10 * w * ht = 8 + 10 * (w * ht)
        ring
      omega
    have hc8 : (8:Nat) ≤ layer_width_bytes + layer_height_bytes + layer_cell_bytes * w * ht := by
      have e : layer_width_bytes + layer_height_bytes + layer_cell_bytes * w * ht
          = 8 + 10 * (w * ht) := by
        show 4 + 4 + 10 * w * ht = 8 + 10 * (w * ht)
        ring
      omega
    rw [slice_slice hc4, Nat.add_zero] at hw'
    rw [slice_slice hc8] at hht'
    have hlw : w = layer.width := Except.ok.inj (hw.symm.trans hw')
    have hlh : ht = layer.height := Except.ok.inj (hht.symm.trans hht')
    constructor
    · show q.2.2.1 = ((layer :: q.1).map Layer.width).foldl max clw
      rw [List.map_cons, List.foldl_cons, ← hlw]
      exact hW
    · show q.2.2.2 = ((layer :: q.1).map Layer.height).foldl max clh
      rw [List.map_cons, List.foldl_cons, ← hlh]
      exact hH

/-- A successful framer run whose final cursor lies inside the buffer is
unchanged by appending arbitrary extra bytes to the buffer. -/
theorem load_layers_append {s t : List Byte} {re : Bool} {n offset clw clh : Nat}
    {p : List Layer × Nat × Nat × Nat}
    (h : load_layers s re n offset clw clh = .ok p) (hle : p.2.1 ≤ s.length) :
    load_layers (s ++ t) re n offset clw clh = .ok p := by
  induction n generalizing offset clw clh p with
  | zero =>
    simp only [load_layers, Except.ok.injEq] at h ⊢
    exact h
  | succ n ih =>
    simp only [load_layers] at h ⊢
    rcases bind_eq_ok.mp h with ⟨w, hw, h2⟩
    rcases bind_eq_ok.mp h2 with ⟨ht, hht, h3⟩
    rcases bind_eq_ok.mp h3 with ⟨layer, hl, h4⟩
    rcases bind_eq_ok.mp h4 with ⟨q, hq, h5⟩
    cases h5
    have hle' : q.2.1 ≤ s.length := hle
    have hofs : offset + (layer_width_bytes + layer_height_bytes + layer_cell_bytes * w * ht)
        ≤ q.2.1 := load_layers_offset_le hq
    have e : layer_width_bytes + layer_height_bytes + layer_cell_bytes * w * ht
        = 8 + 10 * (w * ht) := by
      show 4 + 4 + 10 * w * ht = 8 + 10 * (w * ht)
      ring
    have e1 : layer_width_bytes = 4 := rfl
    have e2 : layer_height_bytes = 4 := rfl
    have hb1 : offset + layer_width_bytes ≤ s.length := by omega
    have hb2 : offset + layer_width_bytes + layer_height_bytes ≤ s.length := by omega
    have hb3 : offset + (layer_width_bytes + layer_height_bytes + layer_cell_bytes * w * ht)
        ≤ s.length := by omega
    rw [slice_append hb1, hw]
    simp only [Except.bind]
    rw [slice_append hb2, hht]
    simp only [Except.bind]
    rw [slice_append hb3, hl]
    simp only [Except.bind]
    rw [ih hq hle']

/-- Inversion for `load_xp_string`: on success the version and layer count are
the decoded header fields and the layers and maxima come from the framer
loop started at offset 8. -/
theorem load_xp_string_eq_ok {bs : List Byte} {re : Bool} {doc : Document}
    (h : load_xp_string bs re = .ok doc) :
    ∃ p : List Layer × Nat × Nat × Nat,
      bytes_to_int (if re then (slice bs 0 4).reverse else slice bs 0 4) = .ok doc.version ∧
      bytes_to_int (if re then (slice bs 4 8).reverse else slice bs 4 8) = .ok doc.layer_count ∧
      load_layers bs re doc.layer_count 8 0 0 = .ok p ∧
      doc.layer_data = p.1 ∧ doc.width = p.2.2.1 ∧ doc.height = p.2.2.2 := by
  simp only [load_xp_string] at h
  rcases bind_eq_ok.mp h with ⟨v, hv, h2⟩
  rcases bind_eq_ok.mp h2 with ⟨lc, hlc, h3⟩
  rcases bind_eq_ok.mp h3 with ⟨p, hp, h4⟩
  cases h4
  exact ⟨p, hv, hlc, hp, rfl, rfl, rfl⟩

/-- Peeling the head of the big-endian reference sum. -/
theorem be_reference_cons (x : Byte) (xs : List Byte) :
    be_reference (x :: xs) = x.val * 256 ^ xs.length + be_reference xs := by
  unfold be_reference
  rw [List.length_cons, Finset.sum_range_succ']
  have h1 : ∀ i ∈ Finset.range xs.length,
      ((x :: xs).getD (i + 1) 0).val * 256 ^ (xs.length + 1 - 1 - (i + 1))
        = (xs.getD i 0).val * 256 ^ (xs.length - 1 - i) := by
    intro i _
    rw [List.getD_cons_succ]
    have : xs.length + 1 - 1 - (i + 1) = xs.length - 1 - i := by omega
    rw [this]
  rw [Finset.sum_congr rfl h1, List.getD_cons_zero]
  have h2 : xs.length + 1 - 1 - 0 = xs.length := by omega
  rw [h2, Nat.add_comm]

/-- Peeling the head of the little-endian reference sum. -/
theorem le_reference_cons (x : Byte) (xs : List Byte) :
    le_reference (x :: xs) = x.val + 256 * le_reference xs := by
  unfold le_reference
  rw [List.length_cons, Finset.sum_range_succ']
  have h1 : ∀ i ∈ Finset.range xs.length,
      ((x :: xs).getD (i + 1) 0).val * 256 ^ (i + 1)
        = 256 * ((xs.getD i 0).val * 256 ^ i) := by
    intro i _
    rw [List.getD_cons_succ, pow_succ]
    ring
  rw [Finset.sum_congr rfl h1, List.getD_cons_zero, ← Finset.mul_sum]
  simp [Nat.add_comm]

/-- The source's big-endian fold equals the reference sum. -/
theorem foldl_bytes (b : List Byte) (acc : Nat) :
    b.foldl (fun a c => a * 256 + c.val) acc = acc * 256 ^ b.length + be_reference b := by
  induction b generalizing acc with
  | nil => simp [be_reference]
  | cons x xs ih =>
    rw [List.foldl_cons, ih, be_reference_cons, List.length_cons]
    ring

/-- The right fold of the same step function computes the little-endian sum. -/
theorem foldr_bytes (b : List Byte) :
    b.foldr (fun c a => a * 256 + c.val) 0 = le_reference b := by
  induction b with
  | nil => simp [le_reference]
  | cons x xs ih =>
    rw [List.foldr_cons, ih, le_reference_cons]
    ring

/-- Decoding an 8-byte buffer whose layer-count field is all zero succeeds,
with the version decoded little-endian when `reverse_endian` is true and
big-endian otherwise, zero layers and zero maxima. -/
theorem load_xp_string_header_only (v0 v1 v2 v3 : Byte) (re : Bool) :
    load_xp_string [v0, v1, v2, v3, 0, 0, 0, 0] re =
      .ok { version := if re
              then v0.val + 256 * v1.val + 65536 * v2.val + 16777216 * v3.val
              else v3.val + 256 * v2.val + 65536 * v1.val + 16777216 * v0.val,
            layer_count := 0, width := 0, height := 0, layer_data := [] } := by
  have e1 : slice ([v0, v1, v2, v3, 0, 0, 0, 0] : List Byte) 0 version_bytes
      = [v0, v1, v2, v3] := rfl
  have e2 : slice ([v0, v1, v2, v3, 0, 0, 0, 0] : List Byte) version_bytes
      (version_bytes + layer_count_bytes) = [0, 0, 0, 0] := rfl
  have e3 : ([v0, v1, v2, v3] : List Byte).reverse = [v3, v2, v1, v0] := rfl
  have e4 : bytes_to_int ([0, 0, 0, 0] : List Byte) = .ok 0 := rfl
  have e5 : bytes_to_int (([0, 0, 0, 0] : List Byte).reverse) = .ok 0 := rfl
  have e6 : load_layers [v0, v1, v2, v3, 0, 0, 0, 0] re 0
      (version_bytes + layer_count_bytes) 0 0 = .ok ([], 8, 0, 0) := rfl
  cases re with
  | true =>
    simp only [load_xp_string, e1, e2, e3, e4, e5, e6, if_true]
    rw [bytes_to_int_ne_nil (by simp)]
    simp only [Except.bind, List.foldl_cons, List.foldl_nil, Except.ok.injEq,
      Document.mk.injEq, and_true, true_and]
    rw [e6]
    simp only [Except.ok.injEq, Document.mk.injEq, and_true, true_and]
    ring
  | false =>
    simp only [load_xp_string, e1, e2, e3, e4, e5, e6, Bool.false_eq_true, if_false]
    rw [bytes_to_int_ne_nil (by simp)]
    simp only [Except.bind, List.foldl_cons, List.foldl_nil, Except.ok.injEq,
      Document.mk.injEq, and_true, true_and]
    rw [e6]
    simp only [Except.ok.injEq, Document.mk.injEq, and_true, true_and]
    ring

/-- Claim C1 is false as stated: this 5-byte buffer is too short for the
required 4-byte layer-count read at offset 4 (5 < 8 header bytes), yet
decoding does not fail — Python's truncating slice silently yields the
single byte `0x00`, which decodes to layer count 0, and a Document is
returned. -/
theorem C1_counterexample_truncated_buffer_decodes :
    load_xp_string [0, 0, 0, 0, 0] true = .ok ⟨0, 0, 0, 0, []⟩ ∧
    ([0, 0, 0, 0, 0] : List Byte).length < version_bytes + layer_count_bytes := by
  constructor
  · rfl
  · decide

/-- Claim C1, amended: the decoder performs no explicit truncation check and
raises no dedicated TruncatedInput error.  A required multi-byte read whose
truncating slice comes back empty fails with `ValueError` from `int('', 16)`
— in particular every buffer of at most 4 bytes fails to decode — while a
short-but-non-empty slice is silently mis-decoded (see the counterexample),
and no out-of-bounds read ever occurs because Python slicing clamps. -/
theorem C1_empty_slice_value_error (bs : List Byte) (re : Bool)
    (hlen : bs.length ≤ version_bytes) :
    load_xp_string bs re = .error .valueError := by
  cases bs with
  | nil => cases re <;> rfl
  | cons x xs =>
    have h1 : slice (x :: xs) version_bytes (version_bytes + layer_count_bytes) = [] := by
      have hd : (x :: xs).drop version_bytes = [] :=
        List.drop_eq_nil_of_le (by simpa using hlen)
      simp [slice, hd]
    have h2 : slice (x :: xs) 0 version_bytes ≠ [] := by
      simp [slice, version_bytes]
    simp only [load_xp_string, h1]
    cases re <;> simp [bytes_to_int, h2, Except.bind, List.reverse_eq_nil_iff]

/-- Witness for C1's amended theorem: the 3-byte buffer `[1, 2, 3]` fails to
decode with `ValueError`. -/
theorem C1_empty_slice_value_error_witness :
    load_xp_string [1, 2, 3] true = .error .valueError :=
  C1_empty_slice_value_error [1, 2, 3] true (by decide)

/-- Claim C2: a 4-byte field is decoded through `_bytes_to_int` as the
unsigned 32-bit little-endian value of its bytes when `reverse_endian` is
true (the bytes are reversed first) and as the big-endian value when false;
the version field of a decode of an 8-byte buffer shows both readings, and
for non-palindromic bytes the two readings disagree (each equals the
byte-swapped reference of the other). -/
theorem C2_endianness (b0 b1 b2 b3 : Byte) :
    bytes_to_int ([b0, b1, b2, b3] : List Byte).reverse
      = .ok (b0.val + 256 * b1.val + 65536 * b2.val + 16777216 * b3.val) ∧
    bytes_to_int ([b0, b1, b2, b3] : List Byte)
      = .ok (b3.val + 256 * b2.val + 65536 * b1.val + 16777216 * b0.val) ∧
    load_xp_string [b0, b1, b2, b3, 0, 0, 0, 0] true
      = .ok ⟨b0.val + 256 * b1.val + 65536 * b2.val + 16777216 * b3.val, 0, 0, 0, []⟩ ∧
    load_xp_string [b0, b1, b2, b3, 0, 0, 0, 0] false
      = .ok ⟨b3.val + 256 * b2.val + 65536 * b1.val + 16777216 * b0.val, 0, 0, 0, []⟩ ∧
    ([b0, b1, b2, b3] ≠ ([b3, b2, b1, b0] : List Byte) →
      b0.val + 256 * b1.val + 65536 * b2.val + 16777216 * b3.val
        ≠ b3.val + 256 * b2.val + 65536 * b1.val + 16777216 * b0.val) := by
  refine ⟨?_, ?_, ?_, ?_, ?_⟩
  · rw [show ([b0, b1, b2, b3] : List Byte).reverse = [b3, b2, b1, b0] from rfl,
      bytes_to_int_ne_nil (by simp)]
    simp only [List.foldl_cons, List.foldl_nil, Except.ok.injEq]
    ring
  · rw [bytes_to_int_ne_nil (by simp)]
    simp only [List.foldl_cons, List.foldl_nil, Except.ok.injEq]
    ring
  · exact load_xp_string_header_only b0 b1 b2 b3 true
  · exact load_xp_string_header_only b0 b1 b2 b3 false
  · intro hne heq
    apply hne
    have h0 := b0.isLt
    have h1 := b1.isLt
    have h2 := b2.isLt
    have h3 := b3.isLt
    have e03 : b0.val = b3.val := by omega
    have e12 : b1.val = b2.val := by omega
    have f03 : b0 = b3 := Fin.val_inj.mp e03
    have f12 : b1 = b2 := Fin.val_inj.mp e12
    rw [f03, f12]

/-- Witness for C2 at the non-palindromic field bytes `[1, 0, 0, 0]`. -/
theorem C2_endianness_witness :
    (1 : Byte).val + 256 * (0 : Byte).val + 65536 * (0 : Byte).val
        + 16777216 * (0 : Byte).val
      ≠ (0 : Byte).val + 256 * (0 : Byte).val + 65536 * (0 : Byte).val
        + 16777216 * (1 : Byte).val :=
  (C2_endianness 1 0 0 0).2.2.2.2 (by decide)

/-- Claim C3: in every successfully decoded document, each layer's cell grid
has exactly `width` outer entries (x is the outer index) and each outer
entry has exactly `height` inner entries. -/
theorem C3_grid_shape {bs : List Byte} {re : Bool} {doc : Document}
    (h : load_xp_string bs re = .ok doc) :
    ∀ L ∈ doc.layer_data,
      L.cells.length = L.width ∧ ∀ row ∈ L.cells, row.length = L.height := by
  obtain ⟨p, -, -, hp, hld, -, -⟩ := load_xp_string_eq_ok h
  intro L hL
  rw [hld] at hL
  obtain ⟨-, hmem⟩ := load_layers_shape hp
  obtain ⟨ls, hls⟩ := hmem L hL
  obtain ⟨-, -, q, hq, hcells⟩ := parse_layer_eq_ok hls
  obtain ⟨hlen, hrows⟩ := parse_cell_grid_shape hq
  rw [hcells]
  exact ⟨hlen, hrows⟩

/-- Witness for C3 on the decoded sample buffer: the single layer has 2
columns and its first column has 1 cell. -/
theorem C3_grid_shape_witness :
    sample_layer.cells.length = sample_layer.width ∧
    (sample_layer.cells.getD 0 []).length = sample_layer.height := by
  have h := C3_grid_shape
    (show load_xp_string sample_buffer true = .ok sample_document from rfl)
    sample_layer (by simp [sample_document])
  exact ⟨h.1, h.2 (sample_layer.cells.getD 0 []) (by simp [sample_layer])⟩

/-- Claim C4: in every successfully decoded document, the document-level
width and height are the maxima of the layer widths and heights (folded
maxima over the layer list, two independent maxima), and both are 0 when
the layer count is 0. -/
theorem C4_document_maxima {bs : List Byte} {re : Bool} {doc : Document}
    (h : load_xp_string bs re = .ok doc) :
    doc.width = (doc.layer_data.map Layer.width).foldl max 0 ∧
    doc.height = (doc.layer_data.map Layer.height).foldl max 0 ∧
    (doc.layer_count = 0 → doc.width = 0 ∧ doc.height = 0) := by
  obtain ⟨p, -, -, hp, hld, hw, hh⟩ := load_xp_string_eq_ok h
  obtain ⟨hW, hH⟩ := load_layers_maxima hp
  refine ⟨by rw [hld, hw]; exact hW, by rw [hld, hh]; exact hH, ?_⟩
  intro h0
  rw [h0] at hp
  simp only [load_layers, Except.ok.injEq] at hp
  constructor
  · rw [hw, ← hp]
  · rw [hh, ← hp]

/-- Witness for C4 on the decoded sample buffer. -/
theorem C4_document_maxima_witness :
    sample_document.width = (sample_document.layer_data.map Layer.width).foldl max 0 ∧
    sample_document.height = (sample_document.layer_data.map Layer.height).foldl max 0 := by
  have h := C4_document_maxima
    (show load_xp_string sample_buffer true = .ok sample_document from rfl)
  exact ⟨h.1, h.2.1⟩

/-- Claim C5: in every successful decode, the returned `layer_count` equals
the 32-bit value decoded from header bytes `[4, 8)` (in the declared byte
order), and the number of returned layers equals that `layer_count`. -/
theorem C5_layer_count {bs : List Byte} {re : Bool} {doc : Document}
    (h : load_xp_string bs re = .ok doc) :
    bytes_to_int (if re then (slice bs 4 8).reverse else slice bs 4 8)
      = .ok doc.layer_count ∧
    doc.layer_data.length = doc.layer_count := by
  obtain ⟨p, -, hlc, hp, hld, -, -⟩ := load_xp_string_eq_ok h
  exact ⟨hlc, by rw [hld]; exact (load_layers_shape hp).1⟩

/-- Witness for C5 on the sample buffer: the header says 1 layer and 1 layer
is returned. -/
theorem C5_layer_count_witness :
    bytes_to_int (if true then (slice sample_buffer 4 8).reverse
        else slice sample_buffer 4 8) = .ok sample_document.layer_count ∧
    sample_document.layer_data.length = sample_document.layer_count :=
  C5_layer_count (show load_xp_string sample_buffer true = .ok sample_document from rfl)

/-- Claim C6: decoding the hand-constructed buffer (1 layer, width 2,
height 1, keycodes 65 then 66, little-endian fields) with
`reverse_endian = true` yields exactly the expected document, with
`cells[0][0].keycode = 65` and `cells[1][0].keycode = 66`: cell records
appear in the buffer ordered by increasing x, then increasing y. -/
theorem C6_sample_roundtrip :
    load_xp_string sample_buffer true = .ok sample_document ∧
    (((sample_document.layer_data.getD 0 ⟨0, 0, []⟩).cells.getD 0 []).getD 0
      ⟨0, 0, 0, 0, 0, 0, 0⟩).keycode = 65 ∧
    (((sample_document.layer_data.getD 0 ⟨0, 0, []⟩).cells.getD 1 []).getD 0
      ⟨0, 0, 0, 0, 0, 0, 0⟩).keycode = 66 :=
  ⟨rfl, rfl, rfl⟩

/-- Claim C7: one framer iteration reads width and height by lookahead at
the current cursor without consuming it, hands `_parse_layer` the sub-buffer
of exactly `layer_record_size = 4 + 4 + 10 * width * height` bytes starting
at the cursor, and continues at cursor + `layer_record_size`; when the
buffer is long enough the sub-buffer has exactly that many bytes. -/
theorem C7_layer_framing {s : List Byte} {re : Bool} {n offset clw clh w h : Nat}
    (hw : bytes_to_int (if re then (slice s offset (offset + 4)).reverse
        else slice s offset (offset + 4)) = .ok w)
    (hh : bytes_to_int (if re then (slice s (offset + 4) (offset + 8)).reverse
        else slice s (offset + 4) (offset + 8)) = .ok h) :
    load_layers s re (n + 1) offset clw clh =
      ((parse_layer (slice s offset (offset + (4 + 4 + 10 * w * h))) re).bind
        fun layer_data =>
          (load_layers s re n (offset + (4 + 4 + 10 * w * h))
            (max clw w) (max clh h)).bind fun p =>
          .ok (layer_data :: p.1, p.2)) ∧
    (offset + (4 + 4 + 10 * w * h) ≤ s.length →
      (slice s offset (offset + (4 + 4 + 10 * w * h))).length = 4 + 4 + 10 * w * h) := by
  constructor
  · have hw' : bytes_to_int (if re
        then (slice s offset (offset + layer_width_bytes)).reverse
        else slice s offset (offset + layer_width_bytes)) = .ok w := hw
    have hh' : bytes_to_int (if re
        then (slice s (offset + layer_width_bytes)
          (offset + layer_width_bytes + layer_height_bytes)).reverse
        else slice s (offset + layer_width_bytes)
          (offset + layer_width_bytes + layer_height_bytes)) = .ok h := hh
    simp only [load_layers]
    rw [hw']
    simp only [Except.bind]
    rw [hh']
    simp only [Except.bind]
    rfl
  · intro hb
    exact slice_length hb

/-- Witness for C7 at the sample buffer's single layer iteration. -/
theorem C7_layer_framing_witness :
    load_layers sample_buffer true (0 + 1) 8 0 0 =
      ((parse_layer (slice sample_buffer 8 (8 + (4 + 4 + 10 * 2 * 1))) true).bind
        fun layer_data =>
          (load_layers sample_buffer true 0 (8 + (4 + 4 + 10 * 2 * 1))
            (max 0 2) (max 0 1)).bind fun p =>
          .ok (layer_data :: p.1, p.2)) ∧
    (8 + (4 + 4 + 10 * 2 * 1) ≤ sample_buffer.length →
      (slice sample_buffer 8 (8 + (4 + 4 + 10 * 2 * 1))).length = 4 + 4 + 10 * 2 * 1) := by
  refine C7_layer_framing ?_ ?_ <;> rfl

/-- Claim C8: decoding an 8-byte buffer whose layer-count field encodes 0
(bytes `[0,0,0,0]`, which encode 0 in either byte order) succeeds with an
empty layer sequence and document width and height 0. -/
theorem C8_zero_layers (v0 v1 v2 v3 : Byte) (re : Bool) :
    load_xp_string [v0, v1, v2, v3, 0, 0, 0, 0] re =
      .ok { version := if re
              then v0.val + 256 * v1.val + 65536 * v2.val + 16777216 * v3.val
              else v3.val + 256 * v2.val + 65536 * v1.val + 16777216 * v0.val,
            layer_count := 0, width := 0, height := 0, layer_data := [] } :=
  load_xp_string_header_only v0 v1 v2 v3 re

/-- Claim C9: a buffer that decodes successfully with the framer consuming
exactly the whole buffer (final cursor = length) decodes to the same
document after appending arbitrary trailing bytes: bytes after the last
layer record are ignored. -/
theorem C9_trailing_bytes_ignored {bs t : List Byte} {re : Bool} {lc : Nat}
    {p : List Layer × Nat × Nat × Nat}
    (hlc : bytes_to_int (if re then (slice bs 4 8).reverse else slice bs 4 8) = .ok lc)
    (hrun : load_layers bs re lc 8 0 0 = .ok p)
    (hoff : p.2.1 = bs.length) :
    load_xp_string (bs ++ t) re = load_xp_string bs re := by
  have h8 : 8 ≤ bs.length := hoff ▸ load_layers_offset_le hrun
  have h4 : (4:Nat) ≤ bs.length := by omega
  have hv : slice (bs ++ t) 0 version_bytes = slice bs 0 version_bytes :=
    slice_append h4
  have hl8 : slice (bs ++ t) version_bytes (version_bytes + layer_count_bytes)
      = slice bs version_bytes (version_bytes + layer_count_bytes) :=
    slice_append h8
  simp only [load_xp_string, hv, hl8]
  apply bind_congr_ok
  intro v _
  apply bind_congr_ok
  intro lc2 hlc2
  have hlceq : lc2 = lc := by
    have h12 := hlc.symm.trans hlc2
    exact (Except.ok.inj h12).symm
  subst hlceq
  have hstab : load_layers (bs ++ t) re lc2 8 0 0 = .ok p :=
    load_layers_append hrun (le_of_eq hoff)
  rw [show load_layers (bs ++ t) re lc2 (version_bytes + layer_count_bytes) 0 0
        = .ok p from hstab,
      show load_layers bs re lc2 (version_bytes + layer_count_bytes) 0 0
        = .ok p from hrun]

/-- Witness for C9: appending `[7, 7]` to a complete 8-byte zero-layer
encoding leaves the decode unchanged. -/
theorem C9_trailing_bytes_ignored_witness :
    load_xp_string ([0, 0, 0, 0, 0, 0, 0, 0] ++ [7, 7]) true
      = load_xp_string [0, 0, 0, 0, 0, 0, 0, 0] true :=
  C9_trailing_bytes_ignored
    (show bytes_to_int (if true
        then (slice [0, 0, 0, 0, 0, 0, 0, 0] 4 8).reverse
        else slice [0, 0, 0, 0, 0, 0, 0, 0] 4 8) = .ok 0 from rfl)
    (show load_layers [0, 0, 0, 0, 0, 0, 0, 0] true 0 8 0 0
        = .ok ([], 8, 0, 0) from rfl)
    (show (([], 8, 0, 0) : List Layer × Nat × Nat × Nat).2.1
        = ([0, 0, 0, 0, 0, 0, 0, 0] : List Byte).length from rfl)

/-- Claim C10: `_bytes_to_int` on a non-empty byte string equals the
big-endian reference sum `sum of b[i] * 256^(n-1-i)`, and composed with the
byte reversal applied when `reverse_endian` is true it equals the
little-endian interpretation `sum of b[i] * 256^i`. -/
theorem C10_bytes_to_int_refines (b : List Byte) (hne : b ≠ []) :
    bytes_to_int b = .ok (be_reference b) ∧
    bytes_to_int b.reverse = .ok (le_reference b) := by
  constructor
  · rw [bytes_to_int_ne_nil hne, foldl_bytes]
    simp
  · have hne2 : b.reverse ≠ [] := by simpa using hne
    rw [bytes_to_int_ne_nil hne2]
    simp only [List.foldl_reverse]
    rw [foldr_bytes]

/-- Witness for C10 at the bytes `[1, 2]`: big-endian 258, little-endian
513. -/
theorem C10_bytes_to_int_refines_witness :
    (bytes_to_int [1, 2] = .ok (be_reference [1, 2]) ∧
      bytes_to_int ([1, 2] : List Byte).reverse = .ok (le_reference [1, 2])) ∧
    be_reference [1, 2] = 258 ∧ le_reference [1, 2] = 513 :=
  ⟨C10_bytes_to_int_refines [1, 2] (by simp), by decide, by decide⟩

end XP
